import Mathlib

/-!
# Static blog generator: site builder (`main.go`) and static server (`cmd/server/main.go`)

A shallow embedding of the two Go programs.

* Go strings are Lean `String`s; file names and paths are compared as written (no symlinks,
  no path normalisation).
* The file system is a map from path to file content; `os.Create` truncates, `tmpl.Execute`
  leaves the bytes it wrote in the file.
* Everything the programs do to the outside world is appended to a trace of `Event`s, in
  program order.
* The parts that are not code of the repository (the directory listing, the `pandoc` binary,
  the `html/template` engine, whether a file can be created) are fields of `Env`; every theorem
  quantifies over them.
-/

namespace Blog

/-! ## Data model -/

/-- The `Post` struct of `main.go`. -/
structure Post where
  Path : String
  Title : String
deriving DecidableEq, Repr

/-- What one run of the external converter did: exit status 0 with the fragment written to the
`-o` file, or a non-zero exit that either left the `-o` file alone (`none`) or left some bytes
in it. -/
inductive ConvResult where
  | success (fragment : String)
  | failure (written : Option String)
deriving DecidableEq, Repr

/-- Observable actions of the builder, in program order. Error values have no text in the
model: a log line that formats an error is recorded with its `%v` left in place. -/
inductive Event where
  /-- A line of `log.Printf` or `fmt.Println` -/
  | print (msg : String)
  /-- The call `exec.Command(argv...).Run()`, with whether it returned a nil error -/
  | exec (argv : List String) (ok : Bool)
  /-- The call `os.Create(path)`, with whether it returned a nil error -/
  | create (path : String) (ok : Bool)
  /-- The call `tmpl.Execute(f, _)` on the file created at `path`: the bytes written and whether the
  returned error is nil -/
  | execute (path : String) (bytes : String) (ok : Bool)
  /-- Entry into `generate_index_html(posts)` -/
  | index (posts : List Post)
  /-- A `template.Must` panic: the process dies -/
  | panic
deriving DecidableEq, Repr

/-- File system: path to content, `none` for a path that has no file. -/
abbrev Files := String → Option String

/-- The file at `path` now holds `bytes`. -/
def Files.write (fs : Files) (path bytes : String) : Files :=
  fun p => if p = path then some bytes else fs p

/-- State of the outside world during a run. -/
structure World where
  files : Files
  trace : List Event

/-- Append one event to the trace. -/
def World.emit (w : World) (e : Event) : World :=
  { w with trace := w.trace ++ [e] }

/-- The file at `path` now holds `bytes`. -/
def World.write (w : World) (path bytes : String) : World :=
  { w with files := w.files.write path bytes }

/-- What the builder gets from outside the repository. -/
structure Env where
  /-- Result of `os.ReadDir("posts")`: the entry names (sorted by file name), or the error text -/
  readDir : Except String (List String)
  /-- The command `pandoc -f markdown <input> -o <tmp>`: a function of the input path and of the content
  of the file there (`none` when there is no such file) -/
  converter : String → Option String → ConvResult
  /-- Whether `os.Create(path)` succeeds -/
  canCreate : String → Bool
  /-- Whether `template.ParseFiles` can parse a file with this content -/
  parses : String → Bool
  /-- Whether `tmpl.AddParseTree` of the content template into the page template returns a
  nil error; arguments are the texts of the page template and of the content template -/
  addParseTree : String → String → Bool
  /-- The call `tmpl.Execute(f, nil)` of the page template with the content template added: the bytes
  written to `f` and whether the error is nil -/
  execute : String → String → String × Bool
  /-- The call `tmpl.Execute(f, posts)` of the index template: bytes written and whether the error is
  nil -/
  executeIndex : String → List Post → String × Bool

/-! ## `strings.Split(s, ".")[0]` -/

/-- Go `strings.Split` with a one-character separator, on the characters of the string. -/
def splitChars (sep : Char) : List Char → List (List Char)
  | [] => [[]]
  | c :: cs =>
    if c = sep then [] :: splitChars sep cs
    else
      match splitChars sep cs with
      | [] => [[c]]
      | seg :: segs => (c :: seg) :: segs

/-- Go `strings.Split(s, sep)` for a separator of one character. -/
def strings_Split (s : String) (sep : Char) : List String :=
  (splitChars sep s.data).map String.mk

/-- The expression `strings.Split(name, ".")[0]` of `get_posts`. -/
def stripped (name : String) : String :=
  (strings_Split name '.').headD ""

/-! ## The builder -/

/-- Result of `generate_posts_html`: `(&Post, nil)`, `(nil, err)`, or a `template.Must`
panic. -/
inductive GenResult where
  | ok (post : Post)
  | err
  | panicked
deriving DecidableEq, Repr

/-- The `cmd.Run()` of `generate_posts_html` together with the log line on error. -/
def run_pandoc (E : Env) (input tmp : String) (w : World) : World :=
  let argv := ["pandoc", "-f", "markdown", input, "-o", tmp]
  match E.converter input (w.files input) with
  | .success fragment => (w.write tmp fragment).emit (.exec argv true)
  | .failure none =>
    (w.emit (.exec argv false)).emit (.print "Error running pandoc: %v")
  | .failure (some bytes) =>
    ((w.write tmp bytes).emit (.exec argv false)).emit (.print "Error running pandoc: %v")

/-- Go `template.ParseFiles(path)`: the text of the template, `none` when the file is missing or
does not parse. -/
def parseFiles (E : Env) (path : String) (w : World) : Option String :=
  match w.files path with
  | none => none
  | some text => if E.parses text then some text else none

/-- The function `generate_posts_html(name)`. -/
def generate_posts_html (E : Env) (name : String) (w : World) : World × GenResult :=
  let w := w.emit (.print ("Generating post " ++ name))
  let input := "posts/" ++ name ++ ".md"
  let path := "posts/" ++ name ++ ".html"
  let output := "generated/" ++ path
  let tmp := "/tmp/post"
  let w := run_pandoc E input tmp w
  if E.canCreate output then
    let w := (w.write output "").emit (.create output true)
    match parseFiles E "template/post.html" w with
    | none => (w.emit .panic, .panicked)
    | some tmpl =>
      match parseFiles E tmp w with
      | none => (w.emit .panic, .panicked)
      | some content =>
        let w := w.emit (.print "post")
        if E.addParseTree tmpl content then
          let r := E.execute tmpl content
          let w := (w.write output r.1).emit (.execute output r.1 r.2)
          if r.2 then (w, .ok { Path := path, Title := name })
          else (w.emit (.print "Error executing template: %v"), .err)
        else (w.emit (.print "Error adding template: %v"), .err)
  else
    ((w.emit (.create output false)).emit (.print "Error creating file: %v"), .err)

/-- The function `get_posts()`. -/
def get_posts (E : Env) (w : World) : World × List String :=
  match E.readDir with
  | .error msg => (w.emit (.print msg), [])
  | .ok posts => (w, posts.map stripped)

/-- The function `generate_index_html(posts)`; the boolean says whether `template.Must` panicked. -/
def generate_index_html (E : Env) (posts : List Post) (w : World) : World × Bool :=
  let w := (w.emit (.index posts)).emit (.print "Generating index.html")
  let output := "generated/index.html"
  if E.canCreate output then
    let w := (w.write output "").emit (.create output true)
    match parseFiles E "template/index.html" w with
    | none => (w.emit .panic, true)
    | some tmpl =>
      let r := E.executeIndex tmpl posts
      let w := (w.write output r.1).emit (.execute output r.1 r.2)
      if r.2 then (w, false)
      else (w.emit (.print "Error executing template: %v"), false)
  else
    ((w.emit (.create output false)).emit (.print "Error creating file: %v"), false)

/-- Where `main` is. -/
inductive Status where
  /-- In the `for` loop, or about to call `generate_index_html` -/
  | running
  /-- After `generate_index_html` has returned -/
  | finished
  /-- The `return` in the loop was taken -/
  | aborted
  /-- A `template.Must` panic ended the process -/
  | panicked
deriving DecidableEq, Repr

/-- The variables of `main`: the world, the slice `posts`, the part of `posts_list` the loop
has not reached yet, and where control is. -/
structure MainState where
  world : World
  posts : List Post
  posts_list : List String
  status : Status

/-- One iteration of the loop of `main`, or, when the loop is over, the call of
`generate_index_html`. A state that is not running stays as it is. -/
def mainStep (E : Env) (s : MainState) : MainState :=
  match s.status with
  | .running =>
    match s.posts_list with
    | [] =>
      let r := generate_index_html E s.posts s.world
      { world := r.1, posts := s.posts, posts_list := [],
        status := if r.2 then .panicked else .finished }
    | post_path :: rest =>
      match generate_posts_html E post_path s.world with
      | (w, .ok post) =>
        { world := w, posts := s.posts ++ [post], posts_list := rest, status := .running }
      | (w, .err) =>
        { world := w.emit (.print "Error generating post: %v"), posts := s.posts,
          posts_list := rest, status := .aborted }
      | (w, .panicked) =>
        { world := w, posts := s.posts, posts_list := rest, status := .panicked }
  | _ => s

/-- State of `main` when the loop starts: `get_posts` has run, `posts` is empty. -/
def mainInit (E : Env) (files : Files) : MainState :=
  let r := get_posts E { files := files, trace := [] }
  { world := r.1, posts := [], posts_list := r.2, status := .running }

/-- State of `main` after `k` steps. -/
def mainAfter (E : Env) (files : Files) (k : Nat) : MainState :=
  (mainStep E)^[k] (mainInit E files)

/-- The function `main()`, started on a file system: one step per document and one for the index. -/
def main (E : Env) (files : Files) : MainState :=
  mainAfter E files ((mainInit E files).posts_list.length + 1)

/-! ## The static server -/

namespace Server

/-- Outcome of `os.Stat`, as far as `os.IsNotExist` tells. -/
inductive StatResult where
  | found
  | notExist
  | otherError
deriving DecidableEq, Repr

/-- Observable actions of the server. -/
inductive Event where
  /-- Go `log.Fatalf` / `log.Fatal`: the line is logged and the process exits with status 1 -/
  | fatal (msg : String)
  /-- The call `http.Handle(pattern, http.FileServer(http.Dir(dir)))` -/
  | handle (pattern dir : String)
  /-- A line of `log.Print` -/
  | print (msg : String)
  /-- The call `http.ListenAndServe(addr, nil)` -/
  | listenAndServe (addr : String)
deriving DecidableEq, Repr

/-- The function `main()` of `cmd/server/main.go`. `stat` is `os.Stat`; `listen` is what
`http.ListenAndServe` does: `none` when it serves until the process is killed, the text of
the error when it returns. -/
def main (stat : String → StatResult) (listen : Option String) : List Event :=
  let generated := "./generated"
  if stat generated = .notExist then
    [.fatal ("Directory " ++ generated ++ " does not exist")]
  else
    let t := [.handle "/" generated, .print "Listening on http://localhost:3000",
              .listenAndServe ":3000"]
    match listen with
    | none => t
    | some err => t ++ [.fatal err]

end Server

/-! ## Observations on traces -/

/-- Converter invocations in a trace: argument vectors, in order. -/
def execs (t : List Event) : List (List String) :=
  t.filterMap fun e => match e with
    | .exec argv _ => some argv
    | _ => none

/-- Arguments of the calls of `generate_index_html` in a trace, in order. -/
def indexCalls (t : List Event) : List (List Post) :=
  t.filterMap fun e => match e with
    | .index posts => some posts
    | _ => none

/-- Paths on which the trace has an `os.Create` or a `tmpl.Execute`, in order. -/
def touched (t : List Event) : List String :=
  t.filterMap fun e => match e with
    | .create path _ => some path
    | .execute path _ _ => some path
    | _ => none

/-- The argument vector `generate_posts_html(name)` runs. -/
def pandocArgv (name : String) : List String :=
  ["pandoc", "-f", "markdown", "posts/" ++ name ++ ".md", "-o", "/tmp/post"]

/-- The file `generate_posts_html(name)` writes. -/
def outputPath (name : String) : String :=
  "generated/" ++ ("posts/" ++ name ++ ".html")

/-- The `Post` that `generate_posts_html(name)` returns on success. -/
def postOf (name : String) : Post :=
  { Path := "posts/" ++ name ++ ".html", Title := name }

/-- Every call `generate_posts_html(name)`, for the names in order and starting from `w`,
returns a `Post`: file creation, template composition and rendering succeed for each. -/
def docsSucceed (E : Env) : List String → World → Bool
  | [], _ => true
  | name :: rest, w =>
    match generate_posts_html E name w with
    | (w1, .ok _) => docsSucceed E rest w1
    | _ => false

/-- The file for `p` was created and its template executed without error in the trace. -/
def Rendered (t : List Event) (p : Post) : Prop :=
  Event.create ("generated/" ++ p.Path) true ∈ t ∧
    ∃ bytes, Event.execute ("generated/" ++ p.Path) bytes true ∈ t

/-! ## The specification's reading of "extension stripped" -/

/-- Characters of a file name without its final `.<ext>` suffix; all of them when there is no
`.` in the name. Follows the wording of the specification, not the code. -/
def trimExtChars : List Char → List Char
  | [] => []
  | c :: cs =>
    if '.' ∈ cs then c :: trimExtChars cs
    else if c = '.' then []
    else c :: cs

/-- The base name of the specification: the file name with its extension stripped. -/
def trimExt (f : String) : String :=
  String.mk (trimExtChars f.data)

/-- Number of `.` in a file name. -/
def dots (f : String) : Nat :=
  f.data.count '.'

/-! ## A concrete environment -/

/-- A converter that fails when the input file is missing and otherwise wraps the source text
in a paragraph. -/
def demoConverter (_input : String) (src : Option String) : ConvResult :=
  match src with
  | none => .failure none
  | some text => .success ("<p>" ++ text ++ "</p>")

/-- An environment in which every file can be created, every text parses, and templates are
rendered by concatenation. -/
def demoEnv (listing : List String) : Env where
  readDir := .ok listing
  converter := demoConverter
  canCreate := fun _ => true
  parses := fun _ => true
  addParseTree := fun _ _ => true
  execute := fun tmpl content => (tmpl ++ content, true)
  executeIndex := fun tmpl posts =>
    (tmpl ++ String.join (posts.map fun p => p.Title ++ ";"), true)

/-- The two templates, an old fragment at the temporary location, and one source file
`posts/<f>` with content `<f>` for each listed entry. -/
def demoFiles (listing : List String) : Files := fun p =>
  if p = "template/post.html" then some "T:"
  else if p = "template/index.html" then some "I:"
  else if p = "/tmp/post" then some "old"
  else match listing.find? (fun f => p = "posts/" ++ f) with
    | some f => some f
    | none => none

/-- The environment `demoEnv` except that `os.Create` fails on the path `blocked`. -/
def blockedEnv (listing : List String) (blocked : String) : Env :=
  { demoEnv listing with canCreate := fun p => p != blocked }

/-- The environment `demoEnv` except that the source directory cannot be read. -/
def unreadableEnv : Env :=
  { demoEnv [] with readDir := .error "open posts: no such file or directory" }

/-! ## Lemmas on traces -/

theorem execs_append (s t : List Event) : execs (s ++ t) = execs s ++ execs t := by
  simp [execs, List.filterMap_append]

theorem indexCalls_append (s t : List Event) :
    indexCalls (s ++ t) = indexCalls s ++ indexCalls t := by
  simp [indexCalls, List.filterMap_append]

theorem touched_append (s t : List Event) : touched (s ++ t) = touched s ++ touched t := by
  simp [touched, List.filterMap_append]

theorem Rendered.mono {s t : List Event} {p : Post} (h : Rendered s p) (hst : s <+: t) :
    Rendered t p := by
  obtain ⟨u, rfl⟩ := hst
  obtain ⟨h1, b, h2⟩ := h
  exact ⟨List.mem_append_left _ h1, b, List.mem_append_left _ h2⟩

theorem outputPath_eq (name : String) :
    outputPath name = "generated/posts/" ++ name ++ ".html" := by
  unfold outputPath
  apply String.ext
  simp [String.data_append]

/-! ## Lemmas on `generate_posts_html` -/

theorem gen_execs (E : Env) (name : String) (w : World) :
    execs (generate_posts_html E name w).1.trace = execs w.trace ++ [pandocArgv name] := by
  unfold generate_posts_html run_pandoc parseFiles
  simp only [World.emit, World.write]
  repeat' split
  all_goals simp [execs_append, execs, pandocArgv]

theorem gen_indexCalls (E : Env) (name : String) (w : World) :
    indexCalls (generate_posts_html E name w).1.trace = indexCalls w.trace := by
  unfold generate_posts_html run_pandoc parseFiles
  simp only [World.emit, World.write]
  repeat' split
  all_goals simp [indexCalls_append, indexCalls]

theorem gen_touched (E : Env) (name : String) (w : World) :
    ∀ p ∈ touched (generate_posts_html E name w).1.trace,
      p ∈ touched w.trace ∨ p = outputPath name := by
  unfold generate_posts_html run_pandoc parseFiles
  simp only [World.emit, World.write]
  repeat' split
  all_goals simp [touched_append, touched, outputPath]

theorem gen_trace_extends (E : Env) (name : String) (w : World) :
    w.trace <+: (generate_posts_html E name w).1.trace := by
  unfold generate_posts_html run_pandoc parseFiles
  simp only [World.emit, World.write]
  repeat' split
  all_goals simp [List.append_assoc]

theorem gen_ok (E : Env) (name : String) (w : World) (post : Post)
    (h : (generate_posts_html E name w).2 = .ok post) :
    post = postOf name ∧ Rendered (generate_posts_html E name w).1.trace post ∧
      ∃ bytes, Event.execute (outputPath name) bytes true ∈
          (generate_posts_html E name w).1.trace ∧
        (generate_posts_html E name w).1.files (outputPath name) = some bytes := by
  revert h
  unfold generate_posts_html run_pandoc parseFiles
  simp only [World.emit, World.write]
  repeat' split
  all_goals intro h
  all_goals simp at h
  all_goals subst h
  all_goals simp [Rendered, postOf, outputPath, Files.write, *]

theorem gen_files_isSome (E : Env) (name : String) (w : World) (p : String)
    (h : (w.files p).isSome) : ((generate_posts_html E name w).1.files p).isSome := by
  unfold generate_posts_html run_pandoc parseFiles
  simp only [World.emit, World.write]
  repeat' split
  all_goals simp only [Files.write]
  all_goals (try split_ifs)
  all_goals simp_all

theorem tmp_ne_output (name : String) : "/tmp/post" ≠ outputPath name := by
  intro h
  have h2 := congrArg String.data h
  simp [outputPath, String.data_append] at h2

theorem tmpl_ne_output (name : String) : "template/post.html" ≠ outputPath name := by
  intro h
  have h2 := congrArg String.data h
  simp [outputPath, String.data_append] at h2

theorem index_ne_output (name : String) : "generated/index.html" ≠ outputPath name := by
  intro h
  have h2 := congrArg String.data h
  simp [outputPath, String.data_append] at h2

theorem input_ne_output (n m : String) : "posts/" ++ n ++ ".md" ≠ outputPath m := by
  intro h
  have h2 := congrArg String.data h
  simp [outputPath, String.data_append] at h2

theorem input_ne_tmp (n : String) : "posts/" ++ n ++ ".md" ≠ "/tmp/post" := by
  intro h
  have h2 := congrArg String.data h
  simp [String.data_append] at h2

/-! ## Lemmas on `generate_index_html` -/

theorem idx_execs (E : Env) (posts : List Post) (w : World) :
    execs (generate_index_html E posts w).1.trace = execs w.trace := by
  unfold generate_index_html parseFiles
  simp only [World.emit, World.write]
  repeat' split
  all_goals simp [execs_append, execs]

theorem idx_indexCalls (E : Env) (posts : List Post) (w : World) :
    indexCalls (generate_index_html E posts w).1.trace = indexCalls w.trace ++ [posts] := by
  unfold generate_index_html parseFiles
  simp only [World.emit, World.write]
  repeat' split
  all_goals simp [indexCalls_append, indexCalls]

theorem idx_touched (E : Env) (posts : List Post) (w : World) :
    ∀ p ∈ touched (generate_index_html E posts w).1.trace,
      p ∈ touched w.trace ∨ p = "generated/index.html" := by
  unfold generate_index_html parseFiles
  simp only [World.emit, World.write]
  repeat' split
  all_goals simp [touched_append, touched]

theorem idx_trace_extends (E : Env) (posts : List Post) (w : World) :
    w.trace <+: (generate_index_html E posts w).1.trace := by
  unfold generate_index_html parseFiles
  simp only [World.emit, World.write]
  repeat' split
  all_goals simp [List.append_assoc]

/-! ## Lemmas on the steps of `main` -/

theorem mainStep_of_not_running (E : Env) (s : MainState) (h : s.status ≠ .running) :
    mainStep E s = s := by
  unfold mainStep
  split
  · rename_i hs
    exact absurd hs h
  · rfl

theorem iterate_of_not_running (E : Env) (s : MainState) (k : Nat)
    (h : s.status ≠ .running) : (mainStep E)^[k] s = s := by
  induction k with
  | zero => rfl
  | succ k ih => rw [Function.iterate_succ_apply, mainStep_of_not_running E s h, ih]

theorem mainStep_ok (E : Env) (s : MainState) (name : String) (rest : List String)
    (w1 : World) (post : Post) (hs : s.status = .running) (hl : s.posts_list = name :: rest)
    (hg : generate_posts_html E name s.world = (w1, .ok post)) :
    mainStep E s =
      { world := w1, posts := s.posts ++ [post], posts_list := rest, status := .running } := by
  unfold mainStep
  simp only [hs, hl, hg]

theorem mainStep_err (E : Env) (s : MainState) (name : String) (rest : List String)
    (w1 : World) (hs : s.status = .running) (hl : s.posts_list = name :: rest)
    (hg : generate_posts_html E name s.world = (w1, .err)) :
    mainStep E s =
      { world := w1.emit (.print "Error generating post: %v"), posts := s.posts,
        posts_list := rest, status := .aborted } := by
  unfold mainStep
  simp only [hs, hl, hg]

theorem mainStep_panicked (E : Env) (s : MainState) (name : String) (rest : List String)
    (w1 : World) (hs : s.status = .running) (hl : s.posts_list = name :: rest)
    (hg : generate_posts_html E name s.world = (w1, .panicked)) :
    mainStep E s =
      { world := w1, posts := s.posts, posts_list := rest, status := .panicked } := by
  unfold mainStep
  simp only [hs, hl, hg]

theorem mainStep_index (E : Env) (s : MainState) (hs : s.status = .running)
    (hl : s.posts_list = []) :
    mainStep E s =
      { world := (generate_index_html E s.posts s.world).1, posts := s.posts, posts_list := [],
        status := if (generate_index_html E s.posts s.world).2 then .panicked
          else .finished } := by
  unfold mainStep
  simp only [hs, hl]

/-- The loop of `main` on documents that all succeed: after one step per document the loop is
over, every document has its `Post` in `posts`, in order, and nothing but the per-document
work has happened. -/
theorem loop_all_ok (E : Env) : ∀ (names : List String) (s : MainState),
    s.status = .running → s.posts_list = names → docsSucceed E names s.world = true →
    ((mainStep E)^[names.length] s).status = .running ∧
    ((mainStep E)^[names.length] s).posts_list = [] ∧
    ((mainStep E)^[names.length] s).posts = s.posts ++ names.map postOf ∧
    indexCalls ((mainStep E)^[names.length] s).world.trace = indexCalls s.world.trace ∧
    execs ((mainStep E)^[names.length] s).world.trace =
      execs s.world.trace ++ names.map pandocArgv ∧
    s.world.trace <+: ((mainStep E)^[names.length] s).world.trace ∧
    (∀ n ∈ names, Rendered ((mainStep E)^[names.length] s).world.trace (postOf n)) ∧
    (∀ p, (s.world.files p).isSome →
      (((mainStep E)^[names.length] s).world.files p).isSome) ∧
    ∀ n ∈ names, (((mainStep E)^[names.length] s).world.files (outputPath n)).isSome := by
  intro names
  induction names with
  | nil =>
    intro s hs hl _
    simp [hs, hl]
  | cons name rest ih =>
    intro s hs hl hok
    unfold docsSucceed at hok
    split at hok
    · rename_i w1 post hg
      have hpost := gen_ok E name s.world post (by rw [hg])
      rw [hg] at hpost
      obtain ⟨hp, hr, bytes, -, hfile⟩ := hpost
      subst hp
      have hstep := mainStep_ok E s name rest w1 _ hs hl hg
      obtain ⟨h1, h2, h3, h4, h5, h6, h7, h8, h9⟩ :=
        ih { world := w1, posts := s.posts ++ [postOf name], posts_list := rest,
             status := .running } rfl rfl hok
      have hext : s.world.trace <+: w1.trace := by
        have := gen_trace_extends E name s.world
        rwa [hg] at this
      have hsome : ∀ p, (s.world.files p).isSome → (w1.files p).isSome := by
        intro p hp
        have := gen_files_isSome E name s.world p hp
        rwa [hg] at this
      simp only [List.length_cons, Function.iterate_succ_apply, hstep]
      refine ⟨h1, h2, ?_, ?_, ?_, hext.trans h6, ?_, ?_, ?_⟩
      · simp [h3]
      · rw [h4]
        have := gen_indexCalls E name s.world
        rwa [hg] at this
      · rw [h5]
        have := gen_execs E name s.world
        rw [hg] at this
        simp [this]
      · intro n hn
        rcases List.mem_cons.1 hn with rfl | hn
        · exact hr.mono h6
        · exact h7 n hn
      · intro p hp
        exact h8 p (hsome p hp)
      · intro n hn
        rcases List.mem_cons.1 hn with rfl | hn
        · apply h8
          simp only at hfile ⊢
          rw [hfile]
          rfl
        · exact h9 n hn
    · exact absurd hok (by simp)

/-! ## Files that a run leaves alone -/

theorem gen_files_other (E : Env) (name : String) (w : World) (p : String)
    (h1 : p ≠ "/tmp/post") (h2 : p ≠ outputPath name) :
    (generate_posts_html E name w).1.files p = w.files p := by
  unfold outputPath at h2
  unfold generate_posts_html run_pandoc parseFiles
  simp only [World.emit, World.write]
  repeat' split
  all_goals simp [Files.write, h1, h2]

theorem idx_files_other (E : Env) (posts : List Post) (w : World) (p : String)
    (h : p ≠ "generated/index.html") :
    (generate_index_html E posts w).1.files p = w.files p := by
  unfold generate_index_html parseFiles
  simp only [World.emit, World.write]
  repeat' split
  all_goals simp [Files.write, h]

/-! ## The states `main` goes through -/

theorem take_drop_step {α : Type} (l : List α) (k : Nat) (x : α) (rest : List α)
    (h : l.drop k = x :: rest) :
    k < l.length ∧ l.take (k + 1) = l.take k ++ [x] ∧ l.drop (k + 1) = rest := by
  induction l generalizing k with
  | nil => simp at h
  | cons y ys ih =>
    cases k with
    | zero =>
      simp at h
      simp [h.1, h.2]
    | succ k =>
      simp at h
      obtain ⟨h1, h2, h3⟩ := ih k h
      simp [h1, h2, h3]

theorem mainAfter_succ (E : Env) (files : Files) (k : Nat) :
    mainAfter E files (k + 1) = mainStep E (mainAfter E files k) := by
  unfold mainAfter
  exact Function.iterate_succ_apply' _ _ _

theorem mainAfter_stable (E : Env) (files : Files) (k m : Nat)
    (h : (mainAfter E files k).status ≠ .running) (hkm : k ≤ m) :
    mainAfter E files m = mainAfter E files k := by
  obtain ⟨d, rfl⟩ := Nat.exists_eq_add_of_le hkm
  unfold mainAfter at *
  rw [Nat.add_comm, Function.iterate_add_apply]
  exact iterate_of_not_running E _ d h

theorem mainInit_facts (E : Env) (files : Files) :
    (mainInit E files).status = .running ∧ (mainInit E files).posts = [] ∧
      (mainInit E files).world.files = files ∧ execs (mainInit E files).world.trace = [] ∧
      indexCalls (mainInit E files).world.trace = [] ∧
      touched (mainInit E files).world.trace = [] := by
  unfold mainInit get_posts
  cases E.readDir <;> simp [World.emit, execs, indexCalls, touched]

/-- What is known of `main` as long as it is running: after `k` steps the first `k` documents
have been processed, each with one converter run and a `Post`, and nothing else happened. -/
theorem after_running (E : Env) (files : Files) : ∀ k : Nat,
    (mainAfter E files k).status = .running →
    k ≤ (mainInit E files).posts_list.length ∧
    (mainAfter E files k).posts_list = (mainInit E files).posts_list.drop k ∧
    (mainAfter E files k).posts = ((mainInit E files).posts_list.take k).map postOf ∧
    execs (mainAfter E files k).world.trace =
      ((mainInit E files).posts_list.take k).map pandocArgv ∧
    indexCalls (mainAfter E files k).world.trace = [] ∧
    (∀ p ∈ touched (mainAfter E files k).world.trace,
      ∃ n ∈ (mainInit E files).posts_list.take k, p = outputPath n) ∧
    (∀ p, p ≠ "/tmp/post" → (∀ n, p ≠ outputPath n) →
      (mainAfter E files k).world.files p = files p) ∧
    ∀ p ∈ (mainAfter E files k).posts, Rendered (mainAfter E files k).world.trace p := by
  intro k
  induction k with
  | zero =>
    intro _
    obtain ⟨-, h2, h3, h4, h5, h6⟩ := mainInit_facts E files
    simp [mainAfter, h2, h3, h4, h5, h6]
  | succ k ih =>
    intro hrun
    rw [mainAfter_succ] at hrun ⊢
    by_cases hk : (mainAfter E files k).status = .running
    · obtain ⟨h1, h2, h3, h4, h5, h6, h7, h8⟩ := ih hk
      cases hl : (mainAfter E files k).posts_list with
      | nil =>
        rw [mainStep_index E _ hk hl] at hrun
        simp only at hrun
        split at hrun <;> simp at hrun
      | cons name rest =>
        rcases hg : generate_posts_html E name (mainAfter E files k).world with ⟨w1, r⟩
        cases r with
        | ok post =>
          have hpost := gen_ok E name (mainAfter E files k).world post (by rw [hg])
          obtain ⟨hp, hr, -⟩ := hpost
          subst hp
          obtain ⟨t1, t2, t3⟩ := take_drop_step _ k name rest (h2 ▸ hl)
          have e1 := gen_execs E name (mainAfter E files k).world
          have e2 := gen_indexCalls E name (mainAfter E files k).world
          have e3 := gen_touched E name (mainAfter E files k).world
          have e4 := gen_trace_extends E name (mainAfter E files k).world
          have e5 := gen_files_other E name (mainAfter E files k).world
          rw [hg] at e1 e2 e3 e4 e5 hr
          rw [mainStep_ok E _ name rest w1 _ hk hl hg]
          refine ⟨t1, t3.symm, ?_, ?_, ?_, ?_, ?_, ?_⟩
          · simp [h3, t2]
          · simp [e1, h4, t2]
          · simp [e2, h5]
          · intro p hp
            rw [t2]
            rcases e3 p hp with hp | hp
            · obtain ⟨n, hn, hpn⟩ := h6 p hp
              exact ⟨n, List.mem_append_left _ hn, hpn⟩
            · exact ⟨name, by simp, hp⟩
          · intro p hp1 hp2
            simp only at e5 ⊢
            rw [e5 p hp1 (hp2 name)]
            exact h7 p hp1 hp2
          · intro p hp
            simp only at hp ⊢
            rcases List.mem_append.1 hp with hp | hp
            · exact (h8 p hp).mono e4
            · simp at hp
              subst hp
              exact hr
        | err =>
          rw [mainStep_err E _ name rest w1 hk hl hg] at hrun
          simp at hrun
        | panicked =>
          rw [mainStep_panicked E _ name rest w1 hk hl hg] at hrun
          simp at hrun
    · rw [mainStep_of_not_running E _ hk] at hrun
      exact absurd hrun hk


theorem idx_trace_shape (E : Env) (posts : List Post) (w : World) :
    ∃ tail, (generate_index_html E posts w).1.trace = w.trace ++ Event.index posts :: tail ∧
      indexCalls tail = [] := by
  unfold generate_index_html parseFiles
  simp only [World.emit, World.write, List.append_assoc, List.singleton_append,
    List.cons_append, List.nil_append]
  repeat' split
  all_goals exact ⟨_, rfl, by simp [indexCalls]⟩

theorem index_split_unique (a c : List Event) (x : List Post) (hc : indexCalls c = []) :
    ∀ (pre suf : List Event) (ps : List Post), indexCalls a = [] →
      a ++ Event.index x :: c = pre ++ Event.index ps :: suf → pre = a ∧ ps = x := by
  induction a with
  | nil =>
    intro pre suf ps _ h
    cases pre with
    | nil =>
      simp at h
      simp [h.1]
    | cons e pre1 =>
      simp at h
      obtain ⟨-, h2⟩ := h
      rw [h2] at hc
      simp [indexCalls_append, indexCalls] at hc
  | cons e a1 ih =>
    intro pre suf ps ha h
    cases pre with
    | nil =>
      simp at h
      obtain ⟨h1, -⟩ := h
      subst h1
      simp [indexCalls] at ha
    | cons e1 pre1 =>
      simp at h
      obtain ⟨h1, h2⟩ := h
      subst h1
      have ha1 : indexCalls a1 = [] := by
        have : indexCalls ([e] ++ a1) = [] := ha
        rw [indexCalls_append] at this
        exact (List.append_eq_nil.1 this).2
      obtain ⟨h3, h4⟩ := ih pre1 suf ps ha1 h2
      simp [h3, h4]

/-- At every point of a run each `Post` in `posts` has been rendered. -/
theorem posts_rendered (E : Env) (files : Files) : ∀ k : Nat,
    ∀ p ∈ (mainAfter E files k).posts, Rendered (mainAfter E files k).world.trace p := by
  intro k
  induction k with
  | zero =>
    have h := (mainInit_facts E files).2.1
    intro p hp
    simp [mainAfter, h] at hp
  | succ k ih =>
    by_cases hk : (mainAfter E files k).status = .running
    · by_cases hk1 : (mainAfter E files (k + 1)).status = .running
      · exact (after_running E files (k + 1) hk1).2.2.2.2.2.2.2
      · rw [mainAfter_succ] at hk1 ⊢
        cases hl : (mainAfter E files k).posts_list with
        | nil =>
          rw [mainStep_index E _ hk hl]
          intro p hp
          exact (ih p hp).mono (idx_trace_extends E _ _)
        | cons name rest =>
          rcases hg : generate_posts_html E name (mainAfter E files k).world with ⟨w1, r⟩
          have e4 := gen_trace_extends E name (mainAfter E files k).world
          rw [hg] at e4
          cases r with
          | ok post =>
            rw [mainStep_ok E _ name rest w1 _ hk hl hg] at hk1
            simp at hk1
          | err =>
            rw [mainStep_err E _ name rest w1 hk hl hg]
            intro p hp
            refine (ih p hp).mono (e4.trans ?_)
            simp [World.emit]
          | panicked =>
            rw [mainStep_panicked E _ name rest w1 hk hl hg]
            intro p hp
            exact (ih p hp).mono e4
    · rw [mainAfter_succ, mainStep_of_not_running E _ hk]
      exact ih

/-- Until the loop of `main` is over, `generate_index_html` has not been called. -/
theorem no_index_in_loop (E : Env) (files : Files) : ∀ k : Nat,
    k ≤ (mainInit E files).posts_list.length →
    indexCalls (mainAfter E files k).world.trace = [] := by
  intro k
  induction k with
  | zero =>
    intro _
    exact (mainInit_facts E files).2.2.2.2.1
  | succ k ih =>
    intro hk1
    have ihk := ih (Nat.le_of_succ_le hk1)
    by_cases hk : (mainAfter E files k).status = .running
    · obtain ⟨-, h2, -⟩ := after_running E files k hk
      rw [mainAfter_succ]
      cases hl : (mainAfter E files k).posts_list with
      | nil =>
        rw [hl] at h2
        have := List.drop_eq_nil_iff.1 h2.symm
        omega
      | cons name rest =>
        rcases hg : generate_posts_html E name (mainAfter E files k).world with ⟨w1, r⟩
        have e2 := gen_indexCalls E name (mainAfter E files k).world
        rw [hg] at e2
        simp only at e2
        cases r with
        | ok post =>
          rw [mainStep_ok E _ name rest w1 _ hk hl hg]
          simp [e2, ihk]
        | err =>
          rw [mainStep_err E _ name rest w1 hk hl hg]
          show indexCalls (w1.trace ++ [Event.print "Error generating post: %v"]) = []
          rw [indexCalls_append, e2, ihk]
          simp [indexCalls]
        | panicked =>
          rw [mainStep_panicked E _ name rest w1 hk hl hg]
          simp [e2, ihk]
    · rw [mainAfter_succ, mainStep_of_not_running E _ hk]
      exact ihk


/-! ## Names derived by `get_posts` -/

theorem splitChars_head (sep : Char) : ∀ cs : List Char,
    ∃ segs, splitChars sep cs = cs.takeWhile (fun c => c != sep) :: segs := by
  intro cs
  induction cs with
  | nil => exact ⟨[], rfl⟩
  | cons c cs ih =>
    obtain ⟨segs, hs⟩ := ih
    by_cases hc : c = sep
    · exact ⟨splitChars sep cs, by simp [splitChars, hc]⟩
    · exact ⟨segs, by simp [splitChars, hc, hs]⟩

theorem stripped_eq (f : String) :
    stripped f = String.mk (f.data.takeWhile (fun c => c != '.')) := by
  obtain ⟨segs, hs⟩ := splitChars_head '.' f.data
  simp [stripped, strings_Split, hs]

theorem takeWhile_eq_trimExtChars : ∀ cs : List Char, cs.count '.' ≤ 1 →
    cs.takeWhile (fun c => c != '.') = trimExtChars cs := by
  intro cs
  induction cs with
  | nil => intro _; rfl
  | cons c cs ih =>
    intro h
    by_cases hc : c = '.'
    · subst hc
      have h0 : cs.count '.' = 0 := by
        simp at h
        exact h
      have hnot : '.' ∉ cs := List.count_eq_zero.1 h0
      simp [trimExtChars, hnot]
    · have h1 : cs.count '.' ≤ 1 := by
        rw [List.count_cons_of_ne (Ne.symm hc)] at h
        exact h
      by_cases hmem : '.' ∈ cs
      · simp [trimExtChars, hmem, hc, ih h1]
      · have hall : cs.takeWhile (fun c => c != '.') = cs := by
          apply List.takeWhile_eq_self_iff.2
          intro x hx
          have : x ≠ '.' := fun hxe => hmem (hxe ▸ hx)
          simpa using this
        simp [trimExtChars, hmem, hc, hall]

theorem stripped_md (n : String) (h : '.' ∉ n.data) : stripped (n ++ ".md") = n := by
  rw [stripped_eq]
  apply String.ext
  simp only [String.data_append]
  have : ∀ cs : List Char, '.' ∉ cs →
      (cs ++ ".md".data).takeWhile (fun c => c != '.') = cs := by
    intro cs
    induction cs with
    | nil => intro _; rfl
    | cons c cs ih =>
      intro hc
      simp at hc
      have hne : c ≠ '.' := fun e => hc.1 e.symm
      simp [hne, ih hc.2]
  exact this n.data h

/-- The names `get_posts` returns, entry by entry: one name per entry of the listing, in
listing order; the name of an entry is `strings.Split(f, ".")[0]`, and for an entry with at
most one `.` that is the entry with its extension stripped. -/
theorem get_posts_names (E : Env) (w : World) (listing : List String)
    (hdir : E.readDir = .ok listing) :
    (get_posts E w).2.length = listing.length ∧
      ∀ (i : Nat) (f : String), listing[i]? = some f →
        (get_posts E w).2[i]? = some (stripped f) ∧
          (dots f ≤ 1 → (get_posts E w).2[i]? = some (trimExt f)) := by
  have h : (get_posts E w).2 = listing.map stripped := by
    simp only [get_posts, hdir]
  refine ⟨by rw [h, List.length_map], ?_⟩
  intro i f hi
  have h1 : (get_posts E w).2[i]? = some (stripped f) := by
    rw [h, List.getElem?_map, hi]
    rfl
  refine ⟨h1, ?_⟩
  intro hd
  rw [h1, stripped_eq, trimExt, takeWhile_eq_trimExtChars f.data hd]

theorem postPath_injective :
    Function.Injective (fun n : String => "posts/" ++ n ++ ".html") := by
  intro a b h
  have h2 := congrArg String.data h
  simp only [String.data_append] at h2
  apply String.ext
  exact List.append_cancel_left (List.append_cancel_right h2)

theorem outputPath_injective : Function.Injective outputPath := by
  intro a b h
  have h2 := congrArg String.data h
  simp only [outputPath, String.data_append] at h2
  apply String.ext
  exact List.append_cancel_left (List.append_cancel_right (List.append_cancel_left h2))

/-! ## Converter runs of a whole run -/

/-- Once `main` has stopped, the converter has run for the documents that got a Post and, if
the loop ended at a failing document, for that document: either the index was never called
and a document after the collected Posts failed, or the index was called with all the Posts. -/
theorem execs_when_stopped (E : Env) (files : Files) : ∀ k : Nat,
    (mainAfter E files k).status ≠ .running →
    execs (mainAfter E files k).world.trace =
        ((mainInit E files).posts_list.take ((mainAfter E files k).posts.length + 1)).map
          pandocArgv ∧
      (mainAfter E files k).posts =
        ((mainInit E files).posts_list.take (mainAfter E files k).posts.length).map postOf ∧
      ((indexCalls (mainAfter E files k).world.trace = [] ∧
          (mainAfter E files k).posts.length < (mainInit E files).posts_list.length ∧
          ((mainAfter E files k).status = .aborted ∨
            (mainAfter E files k).status = .panicked)) ∨
        (indexCalls (mainAfter E files k).world.trace = [(mainAfter E files k).posts] ∧
          (mainAfter E files k).posts.length = (mainInit E files).posts_list.length ∧
          ((mainAfter E files k).status = .finished ∨
            (mainAfter E files k).status = .panicked))) := by
  intro k
  induction k with
  | zero =>
    intro h
    exact absurd (mainInit_facts E files).1 h
  | succ k ih =>
    rw [mainAfter_succ]
    by_cases hk : (mainAfter E files k).status = .running
    · obtain ⟨a1, a2, a3, a4, a5, -⟩ := after_running E files k hk
      have hlen : (mainAfter E files k).posts.length = k := by
        rw [a3, List.length_map, List.length_take]
        omega
      cases hl : (mainAfter E files k).posts_list with
      | nil =>
        have hkn : (mainInit E files).posts_list.length ≤ k := by
          rw [hl] at a2
          exact List.drop_eq_nil_iff.1 a2.symm
        have hkeq : k = (mainInit E files).posts_list.length := by omega
        rw [mainStep_index E _ hk hl]
        intro _
        simp only
        refine ⟨?_, by rw [hlen]; exact a3, Or.inr ⟨?_, by omega, ?_⟩⟩
        · rw [idx_execs, a4, hlen, List.take_of_length_le (by omega),
            List.take_of_length_le (by omega)]
        · rw [idx_indexCalls, a5]
          rfl
        · split <;> simp
      | cons name rest =>
        obtain ⟨t1, t2, -⟩ := take_drop_step _ k name rest (a2 ▸ hl)
        rcases hg : generate_posts_html E name (mainAfter E files k).world with ⟨w1, r⟩
        have e1 := gen_execs E name (mainAfter E files k).world
        have e2 := gen_indexCalls E name (mainAfter E files k).world
        rw [hg] at e1 e2
        simp only at e1 e2
        cases r with
        | ok post =>
          rw [mainStep_ok E _ name rest w1 _ hk hl hg]
          intro h
          exact absurd rfl h
        | err =>
          rw [mainStep_err E _ name rest w1 hk hl hg]
          intro _
          refine ⟨?_, by simp only; rw [hlen]; exact a3,
            Or.inl ⟨?_, by simp only; omega, Or.inl rfl⟩⟩
          · show execs (w1.trace ++ [Event.print "Error generating post: %v"]) = _
            rw [execs_append, e1, a4, hlen, t2]
            simp [execs]
          · show indexCalls (w1.trace ++ [Event.print "Error generating post: %v"]) = _
            rw [indexCalls_append, e2, a5]
            simp [indexCalls]
        | panicked =>
          rw [mainStep_panicked E _ name rest w1 hk hl hg]
          intro _
          refine ⟨?_, by simp only; rw [hlen]; exact a3,
            Or.inl ⟨?_, by simp only; omega, Or.inr rfl⟩⟩
          · simp only
            rw [e1, a4, hlen, t2]
            simp
          · simp only
            rw [e2, a5]
    · rw [mainStep_of_not_running E _ hk]
      intro _
      exact ih hk

theorem main_not_running (E : Env) (files : Files) : (main E files).status ≠ .running := by
  intro h
  have := (after_running E files _ h).1
  omega

/-- A run of `main` in which every document succeeds. -/
theorem main_all_ok (E : Env) (files : Files) (listing : List String)
    (hdir : E.readDir = .ok listing)
    (hok : docsSucceed E (listing.map stripped) { files := files, trace := [] } = true) :
    indexCalls (main E files).world.trace = [(listing.map stripped).map postOf] ∧
      execs (main E files).world.trace = (listing.map stripped).map pandocArgv ∧
      (∀ n ∈ listing.map stripped, Rendered (main E files).world.trace (postOf n)) ∧
      ∀ n ∈ listing.map stripped, ((main E files).world.files (outputPath n)).isSome := by
  have hinit : mainInit E files =
      { world := { files := files, trace := [] }, posts := [],
        posts_list := listing.map stripped, status := .running } := by
    simp [mainInit, get_posts, hdir]
  obtain ⟨h1, h2, h3, h4, h5, -, h7, -, h9⟩ :=
    loop_all_ok E (listing.map stripped) (mainInit E files) (by rw [hinit]) (by rw [hinit])
      (by rw [hinit]; exact hok)
  have hmain : main E files = mainStep E ((mainStep E)^[(listing.map stripped).length]
      (mainInit E files)) := by
    unfold main mainAfter
    rw [Function.iterate_succ_apply, ← Function.iterate_succ_apply' (mainStep E), hinit]
    rfl
  rw [hmain, mainStep_index E _ h1 h2]
  refine ⟨?_, ?_, ?_, ?_⟩
  · rw [idx_indexCalls, h4, h3, hinit]
    simp [indexCalls]
  · simp only
    rw [idx_execs, h5, hinit]
    simp [execs]
  · intro n hn
    exact (h7 n hn).mono (idx_trace_extends E _ _)
  · intro n hn
    simp only
    rw [idx_files_other E _ _ _ (index_ne_output _).symm]
    exact h9 n hn


/-! ## Two runs side by side -/

/-- On two worlds that hold the same source document and the same page template, and with a
converter run that succeeds, `generate_posts_html` returns the same result and appends the
same events, and each path ends either with the same content in both worlds or untouched in
both. -/
theorem gen_lockstep (E : Env) (name : String) (w1 w2 : World) (fragment : String)
    (hin : w2.files ("posts/" ++ name ++ ".md") = w1.files ("posts/" ++ name ++ ".md"))
    (htm : w2.files "template/post.html" = w1.files "template/post.html")
    (htr : w2.trace = w1.trace)
    (hconv : E.converter ("posts/" ++ name ++ ".md") (w1.files ("posts/" ++ name ++ ".md")) =
      .success fragment) :
    (generate_posts_html E name w2).2 = (generate_posts_html E name w1).2 ∧
      (generate_posts_html E name w2).1.trace = (generate_posts_html E name w1).1.trace ∧
      ∀ p, (generate_posts_html E name w2).1.files p =
            (generate_posts_html E name w1).1.files p ∨
          ((generate_posts_html E name w1).1.files p = w1.files p ∧
            (generate_posts_html E name w2).1.files p = w2.files p) := by
  have h1 : "template/post.html" ≠ "generated/" ++ ("posts/" ++ name ++ ".html") :=
    tmpl_ne_output name
  have h2 : "/tmp/post" ≠ "generated/" ++ ("posts/" ++ name ++ ".html") := tmp_ne_output name
  unfold generate_posts_html run_pandoc parseFiles
  simp only [World.emit, World.write, hin, htm, htr, hconv, Files.write, h1, h2, if_false,
    if_true]
  by_cases hc : E.canCreate ("generated/" ++ ("posts/" ++ name ++ ".html")) = true
  · simp only [hc, if_true]
    cases ht : w1.files "template/post.html" with
    | none =>
      refine ⟨by simp [Files.write, h1, h2, ht], by simp [Files.write, h1, h2, ht], ?_⟩
      intro p
      by_cases hp1 : p = "generated/" ++ ("posts/" ++ name ++ ".html") <;>
        by_cases hp2 : p = "/tmp/post" <;> simp [Files.write, h2, hp1, hp2]
    | some tmpl =>
      by_cases hpt : E.parses tmpl = true
      · by_cases hpf : E.parses fragment = true
        · by_cases ha : E.addParseTree tmpl fragment = true
          · by_cases he : (E.execute tmpl fragment).2 = true
            · refine ⟨by simp [Files.write, h1, h2, ht, hpt, hpf, ha, he], by simp [Files.write, h1, h2, ht, hpt, hpf, ha, he], ?_⟩
              intro p
              by_cases hp1 : p = "generated/" ++ ("posts/" ++ name ++ ".html") <;>
                by_cases hp2 : p = "/tmp/post" <;> simp [Files.write, h2, hpt, hpf, ha, he, hp1, hp2]
            · refine ⟨by simp [Files.write, h1, h2, ht, hpt, hpf, ha, he], by simp [Files.write, h1, h2, ht, hpt, hpf, ha, he], ?_⟩
              intro p
              by_cases hp1 : p = "generated/" ++ ("posts/" ++ name ++ ".html") <;>
                by_cases hp2 : p = "/tmp/post" <;> simp [Files.write, h2, hpt, hpf, ha, he, hp1, hp2]
          · refine ⟨by simp [Files.write, h1, h2, ht, hpt, hpf, ha], by simp [Files.write, h1, h2, ht, hpt, hpf, ha], ?_⟩
            intro p
            by_cases hp1 : p = "generated/" ++ ("posts/" ++ name ++ ".html") <;>
              by_cases hp2 : p = "/tmp/post" <;> simp [Files.write, h2, hpt, hpf, ha, hp1, hp2]
        · refine ⟨by simp [Files.write, h1, h2, ht, hpt, hpf], by simp [Files.write, h1, h2, ht, hpt, hpf], ?_⟩
          intro p
          by_cases hp1 : p = "generated/" ++ ("posts/" ++ name ++ ".html") <;>
            by_cases hp2 : p = "/tmp/post" <;> simp [Files.write, h2, hpt, hpf, hp1, hp2]
      · refine ⟨by simp [Files.write, h1, h2, ht, hpt], by simp [Files.write, h1, h2, ht, hpt], ?_⟩
        intro p
        by_cases hp1 : p = "generated/" ++ ("posts/" ++ name ++ ".html") <;>
          by_cases hp2 : p = "/tmp/post" <;> simp [Files.write, h2, hpt, hp1, hp2]
  · refine ⟨by simp [hc], by simp [hc], ?_⟩
    intro p
    by_cases hp2 : p = "/tmp/post" <;> simp [Files.write, h2, hc, hp2]


theorem idx_lockstep (E : Env) (posts : List Post) (w1 w2 : World)
    (htm : w2.files "template/index.html" = w1.files "template/index.html")
    (htr : w2.trace = w1.trace) :
    (generate_index_html E posts w2).2 = (generate_index_html E posts w1).2 ∧
      (generate_index_html E posts w2).1.trace = (generate_index_html E posts w1).1.trace ∧
      ∀ p, (generate_index_html E posts w2).1.files p =
            (generate_index_html E posts w1).1.files p ∨
          ((generate_index_html E posts w1).1.files p = w1.files p ∧
            (generate_index_html E posts w2).1.files p = w2.files p) := by
  have h1 : "template/index.html" ≠ "generated/index.html" := by decide
  unfold generate_index_html parseFiles
  simp only [World.emit, World.write, htm, htr, Files.write, h1, if_false]
  by_cases hc : E.canCreate "generated/index.html" = true
  · cases ht : w1.files "template/index.html" with
    | none =>
      refine ⟨by simp [Files.write, h1, ht, hc], by simp [Files.write, h1, ht, hc], ?_⟩
      intro p
      by_cases hp : p = "generated/index.html" <;> simp [Files.write, h1, ht, hc, hp]
    | some tmpl =>
      by_cases hpt : E.parses tmpl = true
      · by_cases he : (E.executeIndex tmpl posts).2 = true
        · refine ⟨by simp [Files.write, h1, ht, hc, hpt, he], by simp [Files.write, h1, ht, hc, hpt, he], ?_⟩
          intro p
          by_cases hp : p = "generated/index.html" <;> simp [Files.write, h1, ht, hc, hpt, he, hp]
        · refine ⟨by simp [Files.write, h1, ht, hc, hpt, he], by simp [Files.write, h1, ht, hc, hpt, he], ?_⟩
          intro p
          by_cases hp : p = "generated/index.html" <;> simp [Files.write, h1, ht, hc, hpt, he, hp]
      · refine ⟨by simp [Files.write, h1, ht, hc, hpt], by simp [Files.write, h1, ht, hc, hpt], ?_⟩
        intro p
        by_cases hp : p = "generated/index.html" <;> simp [Files.write, h1, ht, hc, hpt, hp]
  · refine ⟨by simp [hc], by simp [hc], ?_⟩
    intro p
    simp [hc]

/-- A run changes no file other than `/tmp/post`, the pages and the index. -/
theorem files_untouched (E : Env) (files : Files) (p : String) (h1 : p ≠ "/tmp/post")
    (h2 : ∀ n, p ≠ outputPath n) (h3 : p ≠ "generated/index.html") : ∀ k : Nat,
    (mainAfter E files k).world.files p = files p := by
  intro k
  induction k with
  | zero => simp [mainAfter, (mainInit_facts E files).2.2.1]
  | succ k ih =>
    rw [mainAfter_succ]
    by_cases hk : (mainAfter E files k).status = .running
    · cases hl : (mainAfter E files k).posts_list with
      | nil =>
        rw [mainStep_index E _ hk hl]
        simp only
        rw [idx_files_other E _ _ p h3, ih]
      | cons name rest =>
        rcases hg : generate_posts_html E name (mainAfter E files k).world with ⟨w1, r⟩
        have e5 := gen_files_other E name (mainAfter E files k).world p h1 (h2 name)
        rw [hg] at e5
        simp only at e5
        cases r with
        | ok post =>
          rw [mainStep_ok E _ name rest w1 _ hk hl hg]
          simp only
          rw [e5, ih]
        | err =>
          rw [mainStep_err E _ name rest w1 hk hl hg]
          show w1.files p = files p
          rw [e5, ih]
        | panicked =>
          rw [mainStep_panicked E _ name rest w1 hk hl hg]
          simp only
          rw [e5, ih]
    · rw [mainStep_of_not_running E _ hk]
      exact ih


/-- Two runs of `main`, one on `files` and one on a file system `files2` that has the same
sources and templates, with a converter that succeeds on every document: after any number of
steps they are in the same place with the same trace, and each path either holds the same
content in both or has been written by neither. -/
theorem runs_lockstep (E : Env) (files files2 : Files)
    (hsame : ∀ p, p ≠ "/tmp/post" → (∀ n, p ≠ outputPath n) → p ≠ "generated/index.html" →
      files2 p = files p)
    (hconv : ∀ name ∈ (mainInit E files).posts_list, ∃ fragment,
      E.converter ("posts/" ++ name ++ ".md") (files ("posts/" ++ name ++ ".md")) =
        .success fragment) : ∀ k : Nat,
    (mainAfter E files2 k).status = (mainAfter E files k).status ∧
      (mainAfter E files2 k).posts = (mainAfter E files k).posts ∧
      (mainAfter E files2 k).posts_list = (mainAfter E files k).posts_list ∧
      (mainAfter E files2 k).world.trace = (mainAfter E files k).world.trace ∧
      ∀ p, (mainAfter E files2 k).world.files p = (mainAfter E files k).world.files p ∨
        ((mainAfter E files k).world.files p = files p ∧
          (mainAfter E files2 k).world.files p = files2 p) := by
  intro k
  induction k with
  | zero =>
    refine ⟨?_, ?_, ?_, ?_, ?_⟩
    all_goals simp only [mainAfter, Function.iterate_zero, id_eq, mainInit, get_posts]
    all_goals cases E.readDir <;> simp [World.emit]
  | succ k ih =>
    obtain ⟨i1, i2, i3, i4, i5⟩ := ih
    rw [mainAfter_succ, mainAfter_succ]
    by_cases hk : (mainAfter E files k).status = .running
    · have hk2 : (mainAfter E files2 k).status = .running := by rw [i1, hk]
      obtain ⟨-, a2, -, -, -, -, a7, -⟩ := after_running E files k hk
      obtain ⟨-, -, -, -, -, -, b7, -⟩ := after_running E files2 k hk2
      have hread : ∀ p, p ≠ "/tmp/post" → (∀ n, p ≠ outputPath n) →
          p ≠ "generated/index.html" →
          (mainAfter E files2 k).world.files p = (mainAfter E files k).world.files p := by
        intro p p1 p2 p3
        rw [a7 p p1 p2, b7 p p1 p2, hsame p p1 p2 p3]
      have hcomb : ∀ (f1 f2 : Files),
          (∀ p, f2 p = f1 p ∨ (f1 p = (mainAfter E files k).world.files p ∧
            f2 p = (mainAfter E files2 k).world.files p)) →
          ∀ p, f2 p = f1 p ∨ (f1 p = files p ∧ f2 p = files2 p) := by
        intro f1 f2 hf p
        rcases hf p with h | ⟨h1, h2⟩
        · exact Or.inl h
        · rcases i5 p with h3 | ⟨h3, h4⟩
          · exact Or.inl (by rw [h1, h2, h3])
          · exact Or.inr ⟨by rw [h1, h3], by rw [h2, h4]⟩
      cases hl : (mainAfter E files k).posts_list with
      | nil =>
        have hl2 : (mainAfter E files2 k).posts_list = [] := by rw [i3, hl]
        obtain ⟨x1, x2, x3⟩ := idx_lockstep E (mainAfter E files k).posts
          (mainAfter E files k).world (mainAfter E files2 k).world
          (hread _ (by decide) (fun n => by
            intro h
            have h2 := congrArg String.data h
            simp [outputPath, String.data_append] at h2) (by decide)) i4
        rw [mainStep_index E _ hk hl, mainStep_index E _ hk2 hl2, i2]
        exact ⟨by simp only [x1], rfl, rfl, x2, hcomb _ _ x3⟩
      | cons name rest =>
        have hl2 : (mainAfter E files2 k).posts_list = name :: rest := by rw [i3, hl]
        have hmem : name ∈ (mainInit E files).posts_list := by
          have : name ∈ (mainInit E files).posts_list.drop k := by
            rw [← a2, hl]
            simp
          exact List.mem_of_mem_drop this
        obtain ⟨fragment, hfrag⟩ := hconv name hmem
        have hin1 : (mainAfter E files k).world.files ("posts/" ++ name ++ ".md") =
            files ("posts/" ++ name ++ ".md") :=
          a7 _ (input_ne_tmp name) (fun n => input_ne_output name n)
        have hidx : "posts/" ++ name ++ ".md" ≠ "generated/index.html" := by
          intro h
          have h2 := congrArg String.data h
          simp [String.data_append] at h2
        obtain ⟨x1, x2, x3⟩ := gen_lockstep E name (mainAfter E files k).world
          (mainAfter E files2 k).world fragment
          (hread _ (input_ne_tmp name) (fun n => input_ne_output name n) hidx)
          (hread _ (by decide) (fun n => tmpl_ne_output n) (by decide)) i4
          (by rw [hin1]; exact hfrag)
        rcases hg : generate_posts_html E name (mainAfter E files k).world with ⟨w1, r⟩
        rcases hg2 : generate_posts_html E name (mainAfter E files2 k).world with ⟨w2, r2⟩
        rw [hg, hg2] at x1 x2 x3
        simp only at x1 x2 x3
        subst x1
        cases r2 with
        | ok post =>
          rw [mainStep_ok E _ name rest w1 _ hk hl hg, mainStep_ok E _ name rest w2 _ hk2 hl2 hg2,
            i2]
          exact ⟨rfl, rfl, rfl, x2, hcomb _ _ x3⟩
        | err =>
          rw [mainStep_err E _ name rest w1 hk hl hg, mainStep_err E _ name rest w2 hk2 hl2 hg2,
            i2]
          refine ⟨rfl, rfl, rfl, ?_, hcomb _ _ x3⟩
          simp [World.emit, x2]
        | panicked =>
          rw [mainStep_panicked E _ name rest w1 hk hl hg,
            mainStep_panicked E _ name rest w2 hk2 hl2 hg2, i2]
          exact ⟨rfl, rfl, rfl, x2, hcomb _ _ x3⟩
    · have hk2 : (mainAfter E files2 k).status ≠ .running := by rw [i1]; exact hk
      rw [mainStep_of_not_running E _ hk, mainStep_of_not_running E _ hk2]
      exact ⟨i1, i2, i3, i4, i5⟩

/-- With a converter that succeeds on every document, a second run of `main` on the files the
first run left (sources and templates as they were) leaves every file with the content it
had after the first run. -/
theorem rerun_leaves_files (E : Env) (files : Files)
    (hconv : ∀ name ∈ (mainInit E files).posts_list, ∃ fragment,
      E.converter ("posts/" ++ name ++ ".md") (files ("posts/" ++ name ++ ".md")) =
        .success fragment) :
    ∀ p, (main E (main E files).world.files).world.files p = (main E files).world.files p := by
  intro p
  have hsame : ∀ p, p ≠ "/tmp/post" → (∀ n, p ≠ outputPath n) → p ≠ "generated/index.html" →
      (main E files).world.files p = files p := by
    intro p p1 p2 p3
    exact files_untouched E files p p1 p2 p3 _
  have hnames : (mainInit E (main E files).world.files).posts_list =
      (mainInit E files).posts_list := by
    simp only [mainInit, get_posts]
    cases E.readDir <;> rfl
  obtain ⟨-, -, -, -, h5⟩ := runs_lockstep E files (main E files).world.files hsame hconv
    ((mainInit E files).posts_list.length + 1)
  have hm2 : main E (main E files).world.files =
      mainAfter E (main E files).world.files ((mainInit E files).posts_list.length + 1) := by
    rw [← hnames]
    rfl
  rw [hm2]
  rcases h5 p with h | ⟨-, h⟩
  · exact h
  · exact h


/-! ## The claims -/

/-- C1: when the source directory lists `listing` and every per-document step succeeds,
`main` calls `generate_index_html` exactly once, with the list of
`Post{Path: "posts/" + name + ".html", Title: name}` for the names `get_posts` derives from the
entries, in listing order; and for each entry the file `generated/posts/<name>.html` was
created, its template executed without error, and the file exists when `main` ends. -/
theorem main_passes_posts_in_listing_order (E : Env) (files : Files) (listing : List String)
    (hdir : E.readDir = .ok listing)
    (hok : docsSucceed E (listing.map stripped) { files := files, trace := [] } = true) :
    indexCalls (main E files).world.trace =
        [listing.map fun f =>
          { Path := "posts/" ++ stripped f ++ ".html", Title := stripped f }] ∧
      ∀ f ∈ listing,
        Event.create ("generated/posts/" ++ stripped f ++ ".html") true ∈
            (main E files).world.trace ∧
          (∃ bytes, Event.execute ("generated/posts/" ++ stripped f ++ ".html") bytes true ∈
            (main E files).world.trace) ∧
          ((main E files).world.files ("generated/posts/" ++ stripped f ++ ".html")).isSome := by
  obtain ⟨h1, -, h3, h4⟩ := main_all_ok E files listing hdir hok
  refine ⟨?_, ?_⟩
  · rw [h1]
    simp [postOf]
  · intro f hf
    have hr := h3 (stripped f) (List.mem_map_of_mem _ hf)
    have hs := h4 (stripped f) (List.mem_map_of_mem _ hf)
    rw [← outputPath_eq]
    exact ⟨hr.1, hr.2, hs⟩

/-- Witness for C1: the listing `[a.md, b.md]`; the index receives the entries titled `a` and
`b` in that order and both pages are written. -/
theorem main_passes_posts_in_listing_order_witness :
    indexCalls (main (demoEnv ["a.md", "b.md"]) (demoFiles ["a.md", "b.md"])).world.trace =
        [[{ Path := "posts/a.html", Title := "a" }, { Path := "posts/b.html", Title := "b" }]] ∧
      (main (demoEnv ["a.md", "b.md"]) (demoFiles ["a.md", "b.md"])).world.files
        "generated/posts/a.html" = some "T:<p>a.md</p>" ∧
      (main (demoEnv ["a.md", "b.md"]) (demoFiles ["a.md", "b.md"])).world.files
        "generated/posts/b.html" = some "T:<p>b.md</p>" ∧
      ∀ f ∈ ["a.md", "b.md"],
        Event.create ("generated/posts/" ++ stripped f ++ ".html") true ∈
            (main (demoEnv ["a.md", "b.md"]) (demoFiles ["a.md", "b.md"])).world.trace ∧
          (∃ bytes, Event.execute ("generated/posts/" ++ stripped f ++ ".html") bytes true ∈
            (main (demoEnv ["a.md", "b.md"]) (demoFiles ["a.md", "b.md"])).world.trace) ∧
          ((main (demoEnv ["a.md", "b.md"]) (demoFiles ["a.md", "b.md"])).world.files
            ("generated/posts/" ++ stripped f ++ ".html")).isSome :=
  have h := main_passes_posts_in_listing_order (demoEnv ["a.md", "b.md"])
    (demoFiles ["a.md", "b.md"]) ["a.md", "b.md"] rfl (by decide)
  ⟨h.1, by decide, by decide, h.2⟩

/-- C2: when `main` reaches document `i` (named `name`) and `generate_posts_html` does not
return a Post for it (file creation, template composition or rendering fails), the run stops
there: `main` ends aborted or panicked, `posts` holds only the Posts of the `i` earlier
documents, after the failing call nothing happens except at most the log line of `main`, the
converter has run for documents `0..i` only, only their pages were touched,
`generate_index_html` is never called and `generated/index.html` is left as it was. -/
theorem main_aborts_when_document_fails (E : Env) (files : Files) (i : Nat) (name : String)
    (rest : List String)
    (hrun : (mainAfter E files i).status = .running)
    (hdoc : (mainAfter E files i).posts_list = name :: rest)
    (hfail : (generate_posts_html E name (mainAfter E files i).world).2 = .err ∨
      (generate_posts_html E name (mainAfter E files i).world).2 = .panicked) :
    (mainInit E files).posts_list.drop i = name :: rest ∧
      ((main E files).status = .aborted ∨ (main E files).status = .panicked) ∧
      (main E files).posts = ((mainInit E files).posts_list.take i).map postOf ∧
      (∃ tail, (main E files).world.trace =
          (generate_posts_html E name (mainAfter E files i).world).1.trace ++ tail ∧
        (tail = [] ∨ tail = [Event.print "Error generating post: %v"])) ∧
      execs (main E files).world.trace =
        ((mainInit E files).posts_list.take (i + 1)).map pandocArgv ∧
      (∀ p ∈ touched (main E files).world.trace,
        ∃ n ∈ (mainInit E files).posts_list.take (i + 1), p = outputPath n) ∧
      indexCalls (main E files).world.trace = [] ∧
      (main E files).world.files "generated/index.html" = files "generated/index.html" := by
  obtain ⟨-, h2, h3, h4, h5, h6, h7, -⟩ := after_running E files i hrun
  have hdrop : (mainInit E files).posts_list.drop i = name :: rest := h2 ▸ hdoc
  obtain ⟨t1, t2, -⟩ := take_drop_step _ i name rest hdrop
  have e1 := gen_execs E name (mainAfter E files i).world
  have e2 := gen_indexCalls E name (mainAfter E files i).world
  have e3 := gen_touched E name (mainAfter E files i).world
  have e5 := gen_files_other E name (mainAfter E files i).world "generated/index.html"
    (by decide) (index_ne_output name)
  have htouched : ∀ p ∈ touched (generate_posts_html E name (mainAfter E files i).world).1.trace,
      ∃ n ∈ (mainInit E files).posts_list.take (i + 1), p = outputPath n := by
    intro p hp
    rw [t2]
    rcases e3 p hp with hp | hp
    · obtain ⟨n, hn, hpn⟩ := h6 p hp
      exact ⟨n, List.mem_append_left _ hn, hpn⟩
    · exact ⟨name, by simp, hp⟩
  have hfiles : (generate_posts_html E name (mainAfter E files i).world).1.files
      "generated/index.html" = files "generated/index.html" := by
    rw [e5]
    exact h7 _ (by decide) (fun n => index_ne_output n)
  have hmain : ∀ s, mainAfter E files (i + 1) = s → s.status ≠ .running →
      main E files = s := by
    intro s hs hne
    unfold main
    rw [← hs]
    exact mainAfter_stable E files (i + 1) _ (by rw [hs]; exact hne) (by omega)
  rcases hg : generate_posts_html E name (mainAfter E files i).world with ⟨w1, r⟩
  rw [hg] at e1 e2 htouched hfiles hfail
  simp only at e1 e2 htouched hfiles hfail
  cases r with
  | ok post => simp at hfail
  | err =>
    have hm := hmain _ (by rw [mainAfter_succ, mainStep_err E _ name rest w1 hrun hdoc hg])
      (by simp)
    rw [hm]
    refine ⟨hdrop, Or.inl rfl, h3, ⟨[Event.print "Error generating post: %v"], rfl, Or.inr rfl⟩,
      ?_, ?_, ?_, hfiles⟩
    · show execs (w1.trace ++ [Event.print "Error generating post: %v"]) = _
      rw [execs_append, e1, h4, t2]
      simp [execs]
    · intro p hp
      apply htouched
      have hp2 : p ∈ touched (w1.trace ++ [Event.print "Error generating post: %v"]) := hp
      rw [touched_append] at hp2
      simpa [touched] using hp2
    · show indexCalls (w1.trace ++ [Event.print "Error generating post: %v"]) = _
      rw [indexCalls_append, e2, h5]
      simp [indexCalls]
  | panicked =>
    have hm := hmain _ (by rw [mainAfter_succ, mainStep_panicked E _ name rest w1 hrun hdoc hg])
      (by simp)
    rw [hm]
    refine ⟨hdrop, Or.inr rfl, h3, ⟨[], by simp, Or.inl rfl⟩, ?_, htouched, ?_, hfiles⟩
    · show execs w1.trace = _
      rw [e1, h4, t2]
      simp
    · show indexCalls w1.trace = _
      rw [e2, h5]

/-- Witness for C2: of `a.md`, `b.md`, `c.md` the page of `b` cannot be created; the run stops
with the Post of `a` only, two converter runs, and no index. -/
theorem main_aborts_when_document_fails_witness :
    (main (blockedEnv ["a.md", "b.md", "c.md"] "generated/posts/b.html")
        (demoFiles ["a.md", "b.md", "c.md"])).status = .aborted ∧
      (main (blockedEnv ["a.md", "b.md", "c.md"] "generated/posts/b.html")
        (demoFiles ["a.md", "b.md", "c.md"])).posts = [{ Path := "posts/a.html", Title := "a" }] ∧
      execs (main (blockedEnv ["a.md", "b.md", "c.md"] "generated/posts/b.html")
        (demoFiles ["a.md", "b.md", "c.md"])).world.trace =
          [["pandoc", "-f", "markdown", "posts/a.md", "-o", "/tmp/post"],
           ["pandoc", "-f", "markdown", "posts/b.md", "-o", "/tmp/post"]] ∧
      indexCalls (main (blockedEnv ["a.md", "b.md", "c.md"] "generated/posts/b.html")
        (demoFiles ["a.md", "b.md", "c.md"])).world.trace = [] ∧
      (main (blockedEnv ["a.md", "b.md", "c.md"] "generated/posts/b.html")
        (demoFiles ["a.md", "b.md", "c.md"])).world.files "generated/index.html" = none :=
  have h := main_aborts_when_document_fails
    (blockedEnv ["a.md", "b.md", "c.md"] "generated/posts/b.html")
    (demoFiles ["a.md", "b.md", "c.md"]) 1 "b" ["c"] (by decide) (by decide)
    (Or.inl (by decide))
  ⟨by decide, h.2.2.1, h.2.2.2.2.1, h.2.2.2.2.2.2.1, h.2.2.2.2.2.2.2⟩

/-- C3: the claim fails on the code. The listing is `a.txt`, `b.md` and `/tmp/post` holds an
old fragment. There is no `posts/a.md`, so the converter fails for the first document and its
page is rendered from what is at `/tmp/post`: the old fragment in the first run, the fragment
of `b.md` in the second. The first run leaves the sources and the templates as they were, and
the two runs leave different bytes in `generated/posts/a.html`. -/
theorem second_run_changes_page :
    (main (demoEnv ["a.txt", "b.md"]) (demoFiles ["a.txt", "b.md"])).world.files
        "generated/posts/a.html" = some "T:old" ∧
      (main (demoEnv ["a.txt", "b.md"])
        (main (demoEnv ["a.txt", "b.md"]) (demoFiles ["a.txt", "b.md"])).world.files).world.files
        "generated/posts/a.html" = some "T:<p>b.md</p>" ∧
      (main (demoEnv ["a.txt", "b.md"])
        (main (demoEnv ["a.txt", "b.md"]) (demoFiles ["a.txt", "b.md"])).world.files).world.files
        "generated/posts/a.html" ≠
          (main (demoEnv ["a.txt", "b.md"]) (demoFiles ["a.txt", "b.md"])).world.files
            "generated/posts/a.html" ∧
      (∀ p ∈ ["posts/a.txt", "posts/b.md", "template/post.html", "template/index.html"],
        (main (demoEnv ["a.txt", "b.md"]) (demoFiles ["a.txt", "b.md"])).world.files p =
          demoFiles ["a.txt", "b.md"] p) := by
  decide

/-- C4: when the source directory is empty, and when it cannot be read (`get_posts` prints the
error and returns no names), `main` runs the converter zero times, creates and writes no file
other than `generated/index.html`, so no post page, and calls `generate_index_html` exactly
once, with an empty list of Posts. -/
theorem empty_or_unreadable_source (E : Env) (files : Files)
    (h : E.readDir = .ok [] ∨ ∃ msg, E.readDir = .error msg) :
    (get_posts E { files := files, trace := [] }).2 = [] ∧
      (∀ msg, E.readDir = .error msg →
        (get_posts E { files := files, trace := [] }).1.trace = [Event.print msg]) ∧
      execs (main E files).world.trace = [] ∧
      indexCalls (main E files).world.trace = [[]] ∧
      (∀ p ∈ touched (main E files).world.trace, p = "generated/index.html") ∧
      ∀ p, p ≠ "generated/index.html" → (main E files).world.files p = files p := by
  have hnames : (mainInit E files).posts_list = [] := by
    unfold mainInit get_posts
    rcases h with h | ⟨msg, h⟩ <;> simp [h]
  obtain ⟨f1, f2, f3, f4, f5, f6⟩ := mainInit_facts E files
  have hmain : main E files = mainStep E (mainInit E files) := by
    unfold main
    rw [hnames]
    rfl
  rw [hmain, mainStep_index E _ f1 hnames, f2]
  refine ⟨?_, ?_, ?_, ?_, ?_, ?_⟩
  · unfold get_posts
    rcases h with h | ⟨msg, h⟩ <;> simp [h]
  · intro msg hmsg
    simp [get_posts, hmsg, World.emit]
  · rw [idx_execs, f4]
  · rw [idx_indexCalls, f5]
    rfl
  · intro p hp
    rcases idx_touched E _ _ p hp with hp | hp
    · rw [f6] at hp
      simp at hp
    · exact hp
  · intro p hp
    simp only
    rw [idx_files_other E _ _ p hp, f3]

/-- Witness for C4: a source directory that cannot be read; `get_posts` prints the error, and
the index is rendered from an empty list. -/
theorem empty_or_unreadable_source_witness :
    (get_posts unreadableEnv { files := demoFiles [], trace := [] }).1.trace =
        [Event.print "open posts: no such file or directory"] ∧
      execs (main unreadableEnv (demoFiles [])).world.trace = [] ∧
      indexCalls (main unreadableEnv (demoFiles [])).world.trace = [[]] ∧
      (main unreadableEnv (demoFiles [])).world.files "generated/index.html" = some "I:" :=
  have h := empty_or_unreadable_source unreadableEnv (demoFiles [])
    (Or.inr ⟨"open posts: no such file or directory", rfl⟩)
  ⟨h.2.1 _ rfl, h.2.2.1, h.2.2.2.1, by decide⟩

/-- C5: at every point of a run of `main` (after any number `k` of steps) every Post in the
slice `posts` has had its file `generated/<Path>` created and its template executed without
error earlier in the run; and whenever `generate_index_html(ps)` is called, the same holds for
every Post of `ps` in the part of the trace before the call. -/
theorem posts_in_memory_are_rendered (E : Env) (files : Files) :
    (∀ k : Nat, ∀ p ∈ (mainAfter E files k).posts,
      Event.create ("generated/" ++ p.Path) true ∈ (mainAfter E files k).world.trace ∧
        ∃ bytes, Event.execute ("generated/" ++ p.Path) bytes true ∈
          (mainAfter E files k).world.trace) ∧
      ∀ (pre suf : List Event) (ps : List Post),
        (main E files).world.trace = pre ++ Event.index ps :: suf →
        ∀ p ∈ ps, Event.create ("generated/" ++ p.Path) true ∈ pre ∧
          ∃ bytes, Event.execute ("generated/" ++ p.Path) bytes true ∈ pre := by
  refine ⟨posts_rendered E files, ?_⟩
  intro pre suf ps htrace
  have hmain : main E files = mainStep E (mainAfter E files (mainInit E files).posts_list.length) := by
    unfold main
    rw [mainAfter_succ]
  by_cases hn : (mainAfter E files (mainInit E files).posts_list.length).status = .running
  · obtain ⟨-, h2, -, -, h5, -, -, h8⟩ := after_running E files _ hn
    rw [List.drop_length] at h2
    rw [hmain, mainStep_index E _ hn h2] at htrace
    obtain ⟨tail, ht, htail⟩ := idx_trace_shape E
      (mainAfter E files (mainInit E files).posts_list.length).posts
      (mainAfter E files (mainInit E files).posts_list.length).world
    simp only at htrace
    rw [ht] at htrace
    obtain ⟨hpre, hps⟩ := index_split_unique _ tail _ htail pre suf ps h5 htrace
    subst hpre hps
    exact h8
  · rw [hmain, mainStep_of_not_running E _ hn] at htrace
    have hno := no_index_in_loop E files _ (Nat.le_refl _)
    rw [htrace, indexCalls_append] at hno
    simp [indexCalls] at hno

/-- Witness for C5: the two Posts in memory after two steps on `a.md`, `b.md`. -/
theorem posts_in_memory_are_rendered_witness :
    (mainAfter (demoEnv ["a.md", "b.md"]) (demoFiles ["a.md", "b.md"]) 2).posts =
        [{ Path := "posts/a.html", Title := "a" }, { Path := "posts/b.html", Title := "b" }] ∧
      ∀ p ∈ (mainAfter (demoEnv ["a.md", "b.md"]) (demoFiles ["a.md", "b.md"]) 2).posts,
        Event.create ("generated/" ++ p.Path) true ∈
            (mainAfter (demoEnv ["a.md", "b.md"]) (demoFiles ["a.md", "b.md"]) 2).world.trace ∧
          ∃ bytes, Event.execute ("generated/" ++ p.Path) bytes true ∈
            (mainAfter (demoEnv ["a.md", "b.md"]) (demoFiles ["a.md", "b.md"]) 2).world.trace :=
  ⟨by decide,
    (posts_in_memory_are_rendered (demoEnv ["a.md", "b.md"]) (demoFiles ["a.md", "b.md"])).1 2⟩

/-- C6, as the claim states it, fails: the entries `a.md` and `a.txt` are distinct and every
step succeeds, yet both are written to `generated/posts/a.html` and the index is given two
Posts with the same Path. -/
theorem one_page_per_document_counterexample :
    ["a.md", "a.txt"].Nodup ∧
      docsSucceed (demoEnv ["a.md", "a.txt"]) (["a.md", "a.txt"].map stripped)
        { files := demoFiles ["a.md", "a.txt"], trace := [] } = true ∧
      ["a.md", "a.txt"].map (fun f => "generated/posts/" ++ stripped f ++ ".html") =
        ["generated/posts/a.html", "generated/posts/a.html"] ∧
      ¬ (["a.md", "a.txt"].map
        (fun f => "generated/posts/" ++ stripped f ++ ".html")).Nodup ∧
      indexCalls (main (demoEnv ["a.md", "a.txt"]) (demoFiles ["a.md", "a.txt"])).world.trace =
        [[{ Path := "posts/a.html", Title := "a" }, { Path := "posts/a.html", Title := "a" }]] := by
  decide

/-- C6, amended: when the names `get_posts` derives from the entries of the source listing
are pairwise distinct and every step succeeds, the output paths
`generated/posts/<name>.html` are pairwise distinct, each of these files exists after the run,
and the index is given as many Posts as there are entries, with pairwise distinct Paths. -/
theorem one_page_per_distinct_name (E : Env) (files : Files) (listing : List String)
    (hdir : E.readDir = .ok listing)
    (hnames : (listing.map stripped).Nodup)
    (hok : docsSucceed E (listing.map stripped) { files := files, trace := [] } = true) :
    (listing.map fun f => "generated/posts/" ++ stripped f ++ ".html").Nodup ∧
      (listing.map fun f => "generated/posts/" ++ stripped f ++ ".html").length =
        listing.length ∧
      (∀ f ∈ listing,
        ((main E files).world.files ("generated/posts/" ++ stripped f ++ ".html")).isSome) ∧
      ∃ ps, indexCalls (main E files).world.trace = [ps] ∧ ps.length = listing.length ∧
        (ps.map Post.Path).Nodup := by
  obtain ⟨h1, -, -, h4⟩ := main_all_ok E files listing hdir hok
  have hpaths : (listing.map fun f => "generated/posts/" ++ stripped f ++ ".html") =
      (listing.map stripped).map outputPath := by
    rw [List.map_map]
    apply List.map_congr_left
    intro f _
    exact (outputPath_eq (stripped f)).symm
  refine ⟨?_, by simp, ?_, ?_⟩
  · rw [hpaths]
    exact hnames.map outputPath_injective
  · intro f hf
    rw [← outputPath_eq]
    exact h4 (stripped f) (List.mem_map_of_mem _ hf)
  · refine ⟨_, h1, by simp, ?_⟩
    have hp : ((listing.map stripped).map postOf).map Post.Path =
        (listing.map stripped).map (fun n : String => "posts/" ++ n ++ ".html") := by
      rw [List.map_map]
      rfl
    rw [hp]
    exact hnames.map postPath_injective

/-- Witness for C6 amended: the listing `a.md`, `b.md`. -/
theorem one_page_per_distinct_name_witness :
    (["a.md", "b.md"].map fun f => "generated/posts/" ++ stripped f ++ ".html").Nodup ∧
      (main (demoEnv ["a.md", "b.md"]) (demoFiles ["a.md", "b.md"])).world.files
        "generated/posts/a.html" = some "T:<p>a.md</p>" ∧
      (main (demoEnv ["a.md", "b.md"]) (demoFiles ["a.md", "b.md"])).world.files
        "generated/posts/b.html" = some "T:<p>b.md</p>" :=
  ⟨(one_page_per_distinct_name (demoEnv ["a.md", "b.md"]) (demoFiles ["a.md", "b.md"])
    ["a.md", "b.md"] rfl (by decide) (by decide)).1, by decide, by decide⟩

/-- C7: the claim fails on the code. For the entry `release.v2.md`, `get_posts` returns
`release`, the part before the first `.`, where the name with its extension stripped is
`release.v2`; and `main` then runs the converter on `posts/release.md`, a file that does not
exist, instead of the document. -/
theorem get_posts_cuts_at_first_dot :
    (get_posts (demoEnv ["release.v2.md"])
        { files := demoFiles ["release.v2.md"], trace := [] }).2 = ["release"] ∧
      ["release.v2.md"].map trimExt = ["release.v2"] ∧
      (get_posts (demoEnv ["release.v2.md"])
        { files := demoFiles ["release.v2.md"], trace := [] }).2 ≠
          ["release.v2.md"].map trimExt ∧
      execs (main (demoEnv ["release.v2.md"]) (demoFiles ["release.v2.md"])).world.trace =
        [["pandoc", "-f", "markdown", "posts/release.md", "-o", "/tmp/post"]] ∧
      demoFiles ["release.v2.md"] "posts/release.md" = none ∧
      demoFiles ["release.v2.md"] "posts/release.v2.md" = some "release.v2.md" := by
  decide

/-- C8: when `./generated` does not exist at startup, the server logs the fatal message, which
ends the process, and `http.ListenAndServe` is never called. -/
theorem server_exits_when_directory_missing (stat : String → Server.StatResult)
    (listen : Option String) (h : stat "./generated" = .notExist) :
    Server.main stat listen =
        [Server.Event.fatal "Directory ./generated does not exist"] ∧
      ∀ addr, Server.Event.listenAndServe addr ∉ Server.main stat listen := by
  have hs : Server.main stat listen =
      [Server.Event.fatal "Directory ./generated does not exist"] := by
    unfold Server.main
    simp only [h, if_true]
    rfl
  rw [hs]
  simp

/-- Witness for C8: no path exists. -/
theorem server_exits_when_directory_missing_witness :
    Server.main (fun _ => Server.StatResult.notExist) none =
        [Server.Event.fatal "Directory ./generated does not exist"] ∧
      ∀ addr, Server.Event.listenAndServe addr ∉
        Server.main (fun _ => Server.StatResult.notExist) none :=
  server_exits_when_directory_missing (fun _ => Server.StatResult.notExist) none rfl

/-- C9, as the claim states it, fails twice. For the entry `a.txt` the converter is given
`posts/a.md`, not the document `posts/a.txt`. And of the entries `a.md`, `b.md`, when the page
of `a` cannot be created, the converter is never run for `b.md`. -/
theorem converter_input_counterexample :
    execs (main (demoEnv ["a.txt"]) (demoFiles ["a.txt"])).world.trace =
        [["pandoc", "-f", "markdown", "posts/a.md", "-o", "/tmp/post"]] ∧
      execs (main (demoEnv ["a.txt"]) (demoFiles ["a.txt"])).world.trace ≠
        ["a.txt"].map (fun f => ["pandoc", "-f", "markdown", "posts/" ++ f, "-o", "/tmp/post"]) ∧
      execs (main (blockedEnv ["a.md", "b.md"] "generated/posts/a.html")
          (demoFiles ["a.md", "b.md"])).world.trace =
        [["pandoc", "-f", "markdown", "posts/a.md", "-o", "/tmp/post"]] ∧
      execs (main (blockedEnv ["a.md", "b.md"] "generated/posts/a.html")
          (demoFiles ["a.md", "b.md"])).world.trace ≠
        ["a.md", "b.md"].map
          (fun f => ["pandoc", "-f", "markdown", "posts/" ++ f, "-o", "/tmp/post"]) := by
  decide

/-- C9, amended: when every entry of the source listing is named `<n>.md` with no `.` in
`<n>`, and `main` ends with `k` Posts collected, those are the Posts of the first `k` entries
and the converter runs of `main` are exactly, in order,
`pandoc -f markdown posts/<f> -o /tmp/post` for the first `k + 1` entries `f` of the listing,
each on the source document itself: one run for each document that got a Post and, when the
run stopped at a failing document (`main` ends aborted or panicked, the index is never
called, and `k` is less than the number of entries), one run for that document and none for a
later one; otherwise the index is called with all the Posts, `main` ends finished or panicked
in the index step, `k` is the number of entries, and there is one run for every entry.
When every per-document step succeeds it is the latter: one run per entry, in listing order. -/
theorem converter_runs_on_md_sources (E : Env) (files : Files) (listing : List String)
    (hdir : E.readDir = .ok listing)
    (hmd : ∀ f ∈ listing, ∃ n : String, '.' ∉ n.data ∧ f = n ++ ".md") :
    execs (main E files).world.trace =
        (listing.take ((main E files).posts.length + 1)).map
          (fun f => ["pandoc", "-f", "markdown", "posts/" ++ f, "-o", "/tmp/post"]) ∧
      (main E files).posts =
        (listing.take (main E files).posts.length).map (fun f => postOf (stripped f)) ∧
      ((indexCalls (main E files).world.trace = [] ∧
          (main E files).posts.length < listing.length ∧
          ((main E files).status = .aborted ∨ (main E files).status = .panicked)) ∨
        (indexCalls (main E files).world.trace = [(main E files).posts] ∧
          (main E files).posts.length = listing.length ∧
          ((main E files).status = .finished ∨ (main E files).status = .panicked))) ∧
      (docsSucceed E (listing.map stripped) { files := files, trace := [] } = true →
        execs (main E files).world.trace = listing.map
          (fun f => ["pandoc", "-f", "markdown", "posts/" ++ f, "-o", "/tmp/post"])) := by
  have hargv : ∀ f ∈ listing, pandocArgv (stripped f) =
      ["pandoc", "-f", "markdown", "posts/" ++ f, "-o", "/tmp/post"] := by
    intro f hf
    obtain ⟨n, hn, rfl⟩ := hmd f hf
    rw [stripped_md n hn]
    simp [pandocArgv, String.append_assoc]
  have hnames : (mainInit E files).posts_list = listing.map stripped := by
    simp [mainInit, get_posts, hdir]
  obtain ⟨h1, h2, h3⟩ := execs_when_stopped E files ((mainInit E files).posts_list.length + 1)
    (main_not_running E files)
  have hm : mainAfter E files ((mainInit E files).posts_list.length + 1) = main E files := rfl
  rw [hm, hnames] at h1 h2 h3
  rw [List.length_map] at h3
  refine ⟨?_, ?_, h3, ?_⟩
  · rw [h1, ← List.map_take, List.map_map]
    apply List.map_congr_left
    intro f hf
    exact hargv f (List.mem_of_mem_take hf)
  · rw [← List.map_take, List.map_map] at h2
    exact h2
  · intro hok
    rw [(main_all_ok E files listing hdir hok).2.1, List.map_map]
    apply List.map_congr_left
    intro f hf
    exact hargv f hf

/-- Witness for C9 amended: of `a.md`, `b.md`, `c.md` the page of `b` cannot be created; one
Post is collected, the converter runs for `a.md` and for the failing `b.md`, never for
`c.md`, and the index is not called. -/
theorem converter_runs_on_md_sources_witness :
    (main (blockedEnv ["a.md", "b.md", "c.md"] "generated/posts/b.html")
        (demoFiles ["a.md", "b.md", "c.md"])).posts.length = 1 ∧
      execs (main (blockedEnv ["a.md", "b.md", "c.md"] "generated/posts/b.html")
          (demoFiles ["a.md", "b.md", "c.md"])).world.trace =
        (["a.md", "b.md", "c.md"].take
          ((main (blockedEnv ["a.md", "b.md", "c.md"] "generated/posts/b.html")
            (demoFiles ["a.md", "b.md", "c.md"])).posts.length + 1)).map
          (fun f => ["pandoc", "-f", "markdown", "posts/" ++ f, "-o", "/tmp/post"]) ∧
      execs (main (blockedEnv ["a.md", "b.md", "c.md"] "generated/posts/b.html")
          (demoFiles ["a.md", "b.md", "c.md"])).world.trace =
        [["pandoc", "-f", "markdown", "posts/a.md", "-o", "/tmp/post"],
         ["pandoc", "-f", "markdown", "posts/b.md", "-o", "/tmp/post"]] ∧
      indexCalls (main (blockedEnv ["a.md", "b.md", "c.md"] "generated/posts/b.html")
          (demoFiles ["a.md", "b.md", "c.md"])).world.trace = [] :=
  have h := converter_runs_on_md_sources
    (blockedEnv ["a.md", "b.md", "c.md"] "generated/posts/b.html")
    (demoFiles ["a.md", "b.md", "c.md"]) ["a.md", "b.md", "c.md"] rfl
    (by
      intro f hf
      simp only [List.mem_cons, List.mem_singleton, List.not_mem_nil, or_false] at hf
      rcases hf with rfl | rfl | rfl
      · exact ⟨"a", by decide, by decide⟩
      · exact ⟨"b", by decide, by decide⟩
      · exact ⟨"c", by decide, by decide⟩)
  ⟨by decide, h.1, by decide, by decide⟩

/-- C10: when the converter run of `generate_posts_html(name)` fails and leaves `/tmp/post`
alone, the function still calls `os.Create` on `generated/posts/<name>.html`; and if that and
the later steps succeed on the content that is at `/tmp/post`, it renders that content into
the page, returns the Post and no error, `main` stays in its loop with the Post appended, and
when the remaining documents succeed too the Post is in the list the index is given. -/
theorem converter_failure_is_not_fatal (E : Env) (s : MainState) (name : String)
    (rest : List String)
    (hconv : E.converter ("posts/" ++ name ++ ".md")
      (s.world.files ("posts/" ++ name ++ ".md")) = .failure none) :
    Event.exec (pandocArgv name) false ∈ (generate_posts_html E name s.world).1.trace ∧
      Event.create (outputPath name) (E.canCreate (outputPath name)) ∈
        (generate_posts_html E name s.world).1.trace ∧
      ∀ tmpl content : String,
        E.canCreate (outputPath name) = true →
        s.world.files "template/post.html" = some tmpl → E.parses tmpl = true →
        s.world.files "/tmp/post" = some content → E.parses content = true →
        E.addParseTree tmpl content = true → (E.execute tmpl content).2 = true →
        (generate_posts_html E name s.world).2 = .ok (postOf name) ∧
          (generate_posts_html E name s.world).1.trace = s.world.trace ++
            [Event.print ("Generating post " ++ name), Event.exec (pandocArgv name) false,
             Event.print "Error running pandoc: %v", Event.create (outputPath name) true,
             Event.print "post",
             Event.execute (outputPath name) (E.execute tmpl content).1 true] ∧
          (generate_posts_html E name s.world).1.files (outputPath name) =
            some (E.execute tmpl content).1 ∧
          (generate_posts_html E name s.world).1.files "/tmp/post" = some content ∧
          (s.status = .running → s.posts_list = name :: rest →
            (mainStep E s).status = .running ∧
            (mainStep E s).posts = s.posts ++ [postOf name] ∧
            (mainStep E s).posts_list = rest ∧
            (docsSucceed E rest (generate_posts_html E name s.world).1 = true →
              ∃ ps, postOf name ∈ ps ∧
                indexCalls ((mainStep E)^[rest.length + 2] s).world.trace =
                  indexCalls s.world.trace ++ [ps])) := by
  have h1 : "template/post.html" ≠ "generated/" ++ ("posts/" ++ name ++ ".html") :=
    tmpl_ne_output name
  have h2 : "/tmp/post" ≠ "generated/" ++ ("posts/" ++ name ++ ".html") := tmp_ne_output name
  refine ⟨?_, ?_, ?_⟩
  · unfold generate_posts_html run_pandoc parseFiles
    simp only [World.emit, World.write, hconv]
    repeat' split
    all_goals simp [pandocArgv]
  · unfold generate_posts_html run_pandoc parseFiles
    simp only [World.emit, World.write, hconv, outputPath]
    repeat' split
    all_goals simp_all
  · intro tmpl content hcreate htmpl hp1 htmp hp2 hadd hexec
    unfold outputPath at hcreate
    have hgen : generate_posts_html E name s.world =
        ({ files := (s.world.files.write (outputPath name) "").write (outputPath name)
              (E.execute tmpl content).1,
           trace := s.world.trace ++
            [Event.print ("Generating post " ++ name), Event.exec (pandocArgv name) false,
             Event.print "Error running pandoc: %v", Event.create (outputPath name) true,
             Event.print "post",
             Event.execute (outputPath name) (E.execute tmpl content).1 true] },
          .ok (postOf name)) := by
      unfold generate_posts_html run_pandoc parseFiles
      simp [World.emit, World.write, hconv, hcreate, Files.write, h1, h2, htmpl, hp1, htmp,
        hp2, hadd, hexec, outputPath, pandocArgv, postOf]
    refine ⟨by rw [hgen], by rw [hgen], ?_, ?_, ?_⟩
    · rw [hgen]
      simp [Files.write]
    · rw [hgen]
      simp [Files.write, outputPath, h2, htmp]
    · intro hs hl
      have hstep := mainStep_ok E s name rest _ _ hs hl hgen
      refine ⟨by rw [hstep], by rw [hstep], by rw [hstep], ?_⟩
      intro hrest
      obtain ⟨r1, r2, r3, r4, -⟩ := loop_all_ok E rest (mainStep E s) (by rw [hstep])
        (by rw [hstep]) (by rw [hstep]; rw [hgen] at hrest; exact hrest)
      have e2 := gen_indexCalls E name s.world
      refine ⟨(mainStep E s).posts ++ rest.map postOf, by rw [hstep]; simp, ?_⟩
      rw [Function.iterate_succ_apply', Function.iterate_succ_apply, mainStep_index E _ r1 r2]
      simp only
      rw [hgen] at e2
      rw [idx_indexCalls, r3, r4, hstep]
      simp only
      rw [e2]

/-- Witness for C10: the listing `a.txt`, `b.md`; there is no `posts/a.md`, so the converter
fails on the first document, whose page is rendered from the old fragment at `/tmp/post`. -/
theorem converter_failure_is_not_fatal_witness :
    (generate_posts_html (demoEnv ["a.txt", "b.md"]) "a"
        (mainInit (demoEnv ["a.txt", "b.md"]) (demoFiles ["a.txt", "b.md"])).world).2 =
        .ok { Path := "posts/a.html", Title := "a" } ∧
      (generate_posts_html (demoEnv ["a.txt", "b.md"]) "a"
        (mainInit (demoEnv ["a.txt", "b.md"]) (demoFiles ["a.txt", "b.md"])).world).1.files
          "generated/posts/a.html" = some "T:old" ∧
      Event.exec ["pandoc", "-f", "markdown", "posts/a.md", "-o", "/tmp/post"] false ∈
        (generate_posts_html (demoEnv ["a.txt", "b.md"]) "a"
          (mainInit (demoEnv ["a.txt", "b.md"]) (demoFiles ["a.txt", "b.md"])).world).1.trace :=
  have h := converter_failure_is_not_fatal (demoEnv ["a.txt", "b.md"])
    (mainInit (demoEnv ["a.txt", "b.md"]) (demoFiles ["a.txt", "b.md"])) "a" ["b"] (by decide)
  have h2 := h.2.2 "T:" "old" (by decide) (by decide) (by decide) (by decide) (by decide)
    (by decide) (by decide)
  ⟨h2.1, h2.2.2.1, h.1⟩


end Blog
